import Mathlib

/-!
Shallow embedding of the `bbow` terminal-browser core (Rust sources under
`src/`): the bounded history (`src/history.rs`), the link extractor
(`src/links.rs`), the content pipeline and the session controller / main
interaction loop (`src/browser.rs`).

External collaborators (the `url` crate parser/joiner, the `scraper` HTML
parser, the network fetcher, the LLM summarizer/suggester, the terminal
renderer) are modelled as oracle parameters, exactly at the interface the
repository code consumes them; all logic belonging to the repository is
translated line by line from the Rust source.

Rust `String::len` is the UTF-8 byte length, so all length comparisons in
the embedding use `String.utf8ByteSize`. Rust `str::trim`,
`str::to_lowercase`, `str::starts_with`, `str::ends_with`, `str::lines`
and `char::is_alphanumeric` are modelled by the character-list functions
`rustTrim`, `rustLower`, `rustStartsWith`, `rustEndsWith`, `rustLines`
and `Char.isAlphanum` below, which agree with the Rust originals on the
ASCII (plus `×`/`✕`) inputs this development evaluates.
-/

/-- Rust `str::trim`: strip whitespace from both ends. -/
def rustTrim (s : String) : String :=
  ⟨((s.data.dropWhile Char.isWhitespace).reverse.dropWhile Char.isWhitespace).reverse⟩

/-- Rust `str::to_lowercase` (simple per-character mapping). -/
def rustLower (s : String) : String :=
  ⟨s.data.map Char.toLower⟩

/-- Rust `str::starts_with` with a string pattern. -/
def rustStartsWith (s pat : String) : Bool :=
  pat.data.isPrefixOf s.data

/-- Rust `str::ends_with` with a string pattern. -/
def rustEndsWith (s pat : String) : Bool :=
  pat.data.isSuffixOf s.data

/-- Split a character list at every newline. -/
def splitNl : List Char → List (List Char)
  | [] => [[]]
  | c :: t =>
    if c = '\n' then [] :: splitNl t
    else
      match splitNl t with
      | h :: rest => (c :: h) :: rest
      | [] => [[c]]

/-- Rust `str::lines` as consumed here (every caller trims each line and
drops empty ones afterwards, so the trailing-empty-segment and `\r`
differences of `lines` do not matter). -/
def rustLines (s : String) : List String :=
  (splitNl s.data).map (fun l => ⟨l⟩)

/-- Rust `s.chars().take(n).collect::<String>()`: the first `n`
characters. -/
def rustTake (s : String) (n : Nat) : String :=
  ⟨s.data.take n⟩

/-- Rust `String::pop`: drop the last character. -/
def rustPop (s : String) : String :=
  ⟨s.data.dropLast⟩

/-- `src/history.rs`: `pub struct HistoryEntry { url, title }`. -/
structure HistoryEntry where
  url : String
  title : String
deriving Repr, DecidableEq

/-- `src/history.rs`: `pub struct History { entries, current_index, max_size }`.
The `VecDeque` is modelled as a `List` with the front at the head
(`pop_front` = `tail`, `push_back` = append at the end). -/
structure History where
  entries : List HistoryEntry
  current_index : Option Nat
  max_size : Nat
deriving Repr, DecidableEq

/-- `src/history.rs` line 3: `const MAX_HISTORY_SIZE: usize = 100`. -/
def MAX_HISTORY_SIZE : Nat := 100

/-- `History::new()`. -/
def History.new : History :=
  { entries := [], current_index := none, max_size := MAX_HISTORY_SIZE }

/-- The loop `for _ in 0..remove_count { self.entries.pop_back(); }` in
`History::add`: pop the back element `n` times. -/
def popBackN : Nat → List HistoryEntry → List HistoryEntry
  | 0, l => l
  | n + 1, l => popBackN n l.dropLast

/-- The cursor update inside the eviction loop of `History::add`
(lines 44-50): decrement if positive, else drop to `None`. -/
def decCursor : Option Nat → Option Nat
  | some c => if c > 0 then some (c - 1) else none
  | none => none

/-- The `while self.entries.len() > self.max_size` eviction loop of
`History::add` (lines 42-51): pop the front entry and pull the cursor
back, until the length is within `max_size`. -/
def evict (m : Nat) : List HistoryEntry → Option Nat → List HistoryEntry × Option Nat
  | [], cur => ([], cur)
  | e :: rest, cur =>
    if (e :: rest).length > m then evict m rest (decCursor cur)
    else (e :: rest, cur)

/-- `History::add` (`src/history.rs` lines 26-52): truncate the forward
branch past the cursor, append the new entry, set the cursor to its index,
then evict from the front while over capacity. -/
def History.add (h : History) (url title : String) : History :=
  let truncated : List HistoryEntry :=
    match h.current_index with
    | some current => popBackN (h.entries.length - current - 1) h.entries
    | none => h.entries
  let appended := truncated ++ [{ url := url, title := title }]
  let cur : Option Nat := some (appended.length - 1)
  let result := evict h.max_size appended cur
  { h with entries := result.1, current_index := result.2 }

/-- `History::can_go_back`. -/
def History.can_go_back (h : History) : Bool :=
  match h.current_index with
  | some i => decide (i > 0)
  | none => false

/-- `History::can_go_forward`. -/
def History.can_go_forward (h : History) : Bool :=
  match h.current_index with
  | some i => decide (i < h.entries.length - 1)
  | none => false

/-- `History::go_back` (lines 62-70): mutates the cursor and returns the
entry at the new cursor; returns the updated history plus the Rust return
value. -/
def History.go_back (h : History) : History × Option HistoryEntry :=
  if h.can_go_back then
    match h.current_index with
    | some current =>
      let h' := { h with current_index := some (current - 1) }
      (h', h'.entries.get? (current - 1))
    | none => (h, none)
  else (h, none)

/-- `History::go_forward` (lines 72-80). -/
def History.go_forward (h : History) : History × Option HistoryEntry :=
  if h.can_go_forward then
    match h.current_index with
    | some current =>
      let h' := { h with current_index := some (current + 1) }
      (h', h'.entries.get? (current + 1))
    | none => (h, none)
  else (h, none)

/-- `History::current` (lines 82-84). -/
def History.current (h : History) : Option HistoryEntry :=
  h.current_index.bind (fun i => h.entries.get? i)

/-- `History::list` (lines 86-88). -/
def History.list (h : History) : List HistoryEntry := h.entries

/-- Reachability invariant of `History` values produced from
`History.new` by the public operations: the capacity field is the
constant 100, the length never exceeds it, and the cursor is in bounds
(`none` exactly on the empty log). -/
def History.Inv (h : History) : Prop :=
  h.max_size = MAX_HISTORY_SIZE ∧
  h.entries.length ≤ h.max_size ∧
  (match h.current_index with
   | none => h.entries = []
   | some c => c < h.entries.length)

/-- The public operation alphabet of `History`, for stating properties of
arbitrary call sequences. -/
inductive HOp where
  | add (url title : String)
  | back
  | forward
deriving Repr, DecidableEq

/-- Apply one public operation (return values discarded). -/
def History.applyOp (h : History) : HOp → History
  | .add url title => h.add url title
  | .back => h.go_back.1
  | .forward => h.go_forward.1

/-- Run a sequence of public operations from a starting history. -/
def History.runOps (h : History) : List HOp → History
  | [] => h
  | op :: rest => (h.applyOp op).runOps rest

-- ## Basic lemmas about the history model

theorem popBackN_eq_take (n : Nat) : ∀ l : List HistoryEntry, popBackN n l = l.take (l.length - n) := by
  induction n with
  | zero => intro l; simp [popBackN]
  | succ n ih =>
    intro l
    rw [popBackN, ih, List.dropLast_eq_take, List.take_take, List.length_take]
    congr 1
    omega

theorem evict_le (m : Nat) (l : List HistoryEntry) (cur : Option Nat) (h : l.length ≤ m) :
    evict m l cur = (l, cur) := by
  cases l with
  | nil => rfl
  | cons e rest =>
    rw [evict, if_neg (Nat.not_lt.mpr h)]

theorem evict_spec (m : Nat) (hm : 1 ≤ m) (l : List HistoryEntry) (hne : l ≠ [])
    (hle : l.length ≤ m + 1) :
    evict m l (some (l.length - 1)) =
      (l.drop (l.length - m), some ((min l.length m) - 1)) := by
  rcases Nat.lt_or_ge m l.length with hgt | hge
  · -- l.length = m + 1 : exactly one eviction step
    have hlen : l.length = m + 1 := le_antisymm hle hgt
    cases l with
    | nil => simp at hne
    | cons e rest =>
      have hrest : rest.length = m := by
        simp only [List.length_cons] at hlen
        omega
      rw [evict, if_pos (by omega)]
      have hcur : decCursor (some ((e :: rest).length - 1)) = some (rest.length - 1) := by
        simp only [decCursor, List.length_cons, Nat.add_sub_cancel]
        rw [if_pos (by omega)]
      rw [hcur, evict_le m rest _ (le_of_eq hrest)]
      have h1 : (e :: rest).length - m = 1 := by
        simp only [List.length_cons]
        omega
      have h2 : min (e :: rest).length m = m := by
        simp only [List.length_cons]
        omega
      rw [h1, h2]
      simp [hrest]
  · -- within capacity: no eviction
    rw [evict_le m l _ hge]
    have h1 : l.length - m = 0 := by omega
    have h2 : min l.length m = l.length := by omega
    rw [h1, h2]
    simp

/-- Core lemma for `History::add` on states satisfying the invariant:
after `add` the cursor sits at the tail, the length is within capacity,
and the invariant is preserved. -/
theorem History.add_spec (h : History) (hinv : h.Inv) (url title : String) :
    (h.add url title).current_index = some ((h.add url title).entries.length - 1) ∧
    (h.add url title).entries.length ≤ 100 ∧
    (h.add url title).Inv := by
  obtain ⟨hmax, hlen, hcur⟩ := hinv
  have h100 : h.max_size = 100 := hmax
  cases hcm : h.current_index with
  | none =>
    have hent : h.entries = [] := by simpa [hcm] using hcur
    have hres : h.add url title =
        { h with entries := [{ url := url, title := title }], current_index := some 0 } := by
      simp [History.add, hcm, hent, evict, h100]
    rw [hres]
    refine ⟨rfl, by simp, hmax, by simp [h100], ?_⟩
    show (0 : Nat) < 1
    decide
  | some c =>
    have hcb : c < h.entries.length := by simpa [hcm] using hcur
    have htr : popBackN (h.entries.length - c - 1) h.entries = h.entries.take (c + 1) := by
      rw [popBackN_eq_take]
      congr 1
      omega
    set appended :=
      h.entries.take (c + 1) ++ [{ url := url, title := title : HistoryEntry }] with happ
    have halen : appended.length = c + 2 := by
      rw [happ]
      simp [List.length_take]
      omega
    have hev := evict_spec h.max_size (by omega) appended (by simp [happ])
      (by rw [halen]; omega)
    have hres : h.add url title =
        { h with entries := appended.drop (appended.length - h.max_size),
                 current_index := some (min appended.length h.max_size - 1) } := by
      simp only [History.add, hcm, htr]
      rw [← happ, hev]
    have hdl : (appended.drop (appended.length - h.max_size)).length =
        min appended.length h.max_size := by
      simp only [List.length_drop]
      omega
    rw [hres]
    refine ⟨?_, ?_, hmax, ?_, ?_⟩
    · show some (min appended.length h.max_size - 1) =
        some ((appended.drop (appended.length - h.max_size)).length - 1)
      rw [hdl]
    · show (appended.drop (appended.length - h.max_size)).length ≤ 100
      rw [hdl]
      omega
    · show (appended.drop (appended.length - h.max_size)).length ≤ h.max_size
      rw [hdl]
      omega
    · show min appended.length h.max_size - 1 <
        (appended.drop (appended.length - h.max_size)).length
      rw [hdl]
      omega

theorem History.go_back_inv (h : History) (hinv : h.Inv) : h.go_back.1.Inv := by
  unfold History.go_back
  cases hcm : h.current_index with
  | none =>
    simp only [History.can_go_back, hcm, Bool.false_eq_true, if_false]
    exact hinv
  | some c =>
    obtain ⟨hmax, hlen, hcur⟩ := hinv
    have hcb : c < h.entries.length := by simpa [hcm] using hcur
    simp only [History.can_go_back, hcm]
    by_cases hpos : c > 0
    · rw [if_pos (decide_eq_true hpos)]
      refine ⟨hmax, hlen, ?_⟩
      show c - 1 < h.entries.length
      omega
    · rw [if_neg (fun hcontra => hpos (of_decide_eq_true hcontra))]
      exact ⟨hmax, hlen, hcur⟩

theorem History.go_forward_inv (h : History) (hinv : h.Inv) : h.go_forward.1.Inv := by
  unfold History.go_forward
  cases hcm : h.current_index with
  | none =>
    simp only [History.can_go_forward, hcm, Bool.false_eq_true, if_false]
    exact hinv
  | some c =>
    obtain ⟨hmax, hlen, hcur⟩ := hinv
    have hcb : c < h.entries.length := by simpa [hcm] using hcur
    simp only [History.can_go_forward, hcm]
    by_cases hlt : c < h.entries.length - 1
    · rw [if_pos (decide_eq_true hlt)]
      refine ⟨hmax, hlen, ?_⟩
      show c + 1 < h.entries.length
      omega
    · rw [if_neg (fun hcontra => hlt (of_decide_eq_true hcontra))]
      exact ⟨hmax, hlen, hcur⟩

theorem History.new_inv : History.new.Inv := by
  refine ⟨rfl, by simp [History.new], by simp [History.new]⟩

theorem History.applyOp_inv (h : History) (hinv : h.Inv) (op : HOp) : (h.applyOp op).Inv := by
  cases op with
  | add url title => exact (h.add_spec hinv url title).2.2
  | back => exact h.go_back_inv hinv
  | forward => exact h.go_forward_inv hinv

theorem History.runOps_inv (ops : List HOp) : ∀ h : History, h.Inv → (h.runOps ops).Inv := by
  induction ops with
  | nil => intro h hinv; simpa [History.runOps] using hinv
  | cons op rest ih =>
    intro h hinv
    rw [History.runOps]
    exact ih _ (h.applyOp_inv hinv op)

theorem History.go_back_fst (h : History) :
    h.go_back.1 = { h with current_index := h.current_index.map (fun c => c - 1) } := by
  obtain ⟨entries, cur, m⟩ := h
  cases cur with
  | none => rfl
  | some c =>
    unfold History.go_back
    simp only [History.can_go_back]
    by_cases hpos : c > 0
    · rw [if_pos (decide_eq_true hpos)]
      rfl
    · rw [if_neg (fun hcontra => hpos (of_decide_eq_true hcontra))]
      have hc0 : c = 0 := by omega
      subst hc0
      rfl

/-- `N` iterated `go_back` calls, keeping only the history (the returned
entries are read by the caller but do not change the state further). -/
def History.goBackTimes : Nat → History → History
  | 0, h => h
  | n + 1, h => History.goBackTimes n h.go_back.1

theorem History.goBackTimes_spec (N : Nat) : ∀ (h : History) (c : Nat),
    h.current_index = some c →
    (History.goBackTimes N h).entries = h.entries ∧
    (History.goBackTimes N h).max_size = h.max_size ∧
    (History.goBackTimes N h).current_index = some (c - N) := by
  induction N with
  | zero =>
    intro h c hc
    exact ⟨rfl, rfl, by simpa [History.goBackTimes] using hc⟩
  | succ n ih =>
    intro h c hc
    rw [History.goBackTimes]
    have hgb := History.go_back_fst h
    have hcur : h.go_back.1.current_index = some (c - 1) := by
      rw [hgb]
      simp [hc]
    obtain ⟨h1, h2, h3⟩ := ih h.go_back.1 (c - 1) hcur
    refine ⟨?_, ?_, ?_⟩
    · rw [h1, hgb]
    · rw [h2, hgb]
    · rw [h3]
      congr 1
      omega

/-- C2: for every sequence of `add`/`go_back`/`go_forward` calls starting
from `History::new`, the length never exceeds the capacity 100, and
immediately after a further `add` the cursor equals `entries.length - 1`
(and the length is still at most 100). -/
theorem claim_C2_history_add_invariant (ops : List HOp) (url title : String) :
    (History.new.runOps ops).entries.length ≤ 100 ∧
    ((History.new.runOps ops).add url title).current_index =
      some (((History.new.runOps ops).add url title).entries.length - 1) ∧
    ((History.new.runOps ops).add url title).entries.length ≤ 100 := by
  have hinv := History.runOps_inv ops History.new History.new_inv
  have hadd := History.add_spec _ hinv url title
  obtain ⟨hmax, hlen, _⟩ := hinv
  refine ⟨?_, hadd.1, hadd.2.1⟩
  rw [hmax] at hlen
  exact hlen

/-- C3: from a history whose cursor is at `c`, doing `N ≥ 1` `go_back`
calls and then one `add` yields exactly the prefix of the old entries up
to the post-back cursor plus the new entry; in particular every entry
that sat at an index greater than `c` is gone, and everything kept (the
new tail entry apart) comes from an index at most `c`. -/
theorem claim_C3_branch_truncation (h : History) (c N : Nat) (url title : String)
    (hinv : h.Inv) (hc : h.current_index = some c) (hN : 1 ≤ N) :
    ((History.goBackTimes N h).add url title).entries
        = h.entries.take ((c - N) + 1) ++ [{ url := url, title := title }] ∧
    ∀ e ∈ ((History.goBackTimes N h).add url title).entries.dropLast,
        e ∈ h.entries.take (c + 1) := by
  obtain ⟨hmax, hlen, hcur⟩ := hinv
  have h100 : h.max_size = 100 := hmax
  have hcb : c < h.entries.length := by simpa [hc] using hcur
  obtain ⟨he, hm2, hcur2⟩ := History.goBackTimes_spec N h c hc
  have htr : popBackN ((History.goBackTimes N h).entries.length - (c - N) - 1)
      (History.goBackTimes N h).entries = h.entries.take ((c - N) + 1) := by
    rw [he, popBackN_eq_take]
    congr 1
    omega
  have hev : evict (History.goBackTimes N h).max_size
      (h.entries.take ((c - N) + 1) ++ [{ url := url, title := title }])
      (some ((h.entries.take ((c - N) + 1) ++
        [{ url := url, title := title : HistoryEntry }]).length - 1)) =
      (h.entries.take ((c - N) + 1) ++ [{ url := url, title := title }],
       some ((h.entries.take ((c - N) + 1) ++
        [{ url := url, title := title : HistoryEntry }]).length - 1)) := by
    apply evict_le
    rw [hm2, h100]
    simp only [List.length_append, List.length_take, List.length_cons, List.length_nil]
    omega
  have hres : ((History.goBackTimes N h).add url title).entries
      = h.entries.take ((c - N) + 1) ++ [{ url := url, title := title }] := by
    simp only [History.add, hcur2, htr, hev]
  refine ⟨hres, ?_⟩
  rw [hres]
  intro e he2
  rw [List.dropLast_concat] at he2
  have hsub : h.entries.take ((c - N) + 1) =
      (h.entries.take (c + 1)).take ((c - N) + 1) := by
    rw [List.take_take]
    congr 1
    omega
  rw [hsub] at he2
  exact List.take_subset _ _ he2

-- ## Link extractor (`src/links.rs`)

/-- `src/links.rs` lines 5-9: the tuning constants. -/
def MIN_LINK_TEXT_LENGTH : Nat := 2

def MIN_ALT_TEXT_LENGTH : Nat := 2

def MAX_NOISE_TEXT_LENGTH : Nat := 20

def MAX_URL_LENGTH : Nat := 200

def MAX_LINK_TEXT_LENGTH : Nat := 100

/-- `pub struct Link { text, url, index }`. -/
structure Link where
  text : String
  url : String
  index : Nat
deriving Repr, DecidableEq

/-- Substring test on character lists, modelling Rust `str::contains`
with a string pattern (true iff the needle occurs contiguously). -/
def containsSub (needle : List Char) : List Char → Bool
  | [] => needle.isPrefixOf []
  | c :: t => needle.isPrefixOf (c :: t) || containsSub needle t

/-- Rust `haystack.contains(needle)` for strings. -/
def strContains (haystack needle : String) : Bool :=
  containsSub needle.data haystack.data

/-- A node of the DOM subtree below an anchor, as `scraper`'s flat
`descendants()` traversal yields it: element nodes (by tag name) and text
nodes. The HTML parsing itself is the external `scraper` collaborator;
anchors enter the model already parsed into this shape. -/
inductive DomNode where
  | element (name : String)
  | text (s : String)
deriving Repr, DecidableEq

/-- One `a[href]` element as the extractor consumes it: the `href`
attribute, the descendant nodes in document order, and the attributes the
text-fallback chain reads (`title`, `aria-label`, the first `img`
descendant's `alt`). -/
structure Anchor where
  href : String
  nodes : List DomNode
  title : Option String
  ariaLabel : Option String
  imgAlt : Option String
deriving Repr, DecidableEq

/-- `src/links.rs` line 92: `skip_elements`. -/
def skipElements : List String := ["img", "source", "video", "audio", "script", "style"]

/-- The descendant walk of `extract_link_text` (lines 94-108): element
nodes in `skip_elements` are skipped with `continue` (element nodes carry
no text either way, so the branch collapses); trimmed non-empty text nodes
not starting with `<` are collected. -/
def anchorTextParts : List DomNode → List String
  | [] => []
  | .element name :: rest =>
    if skipElements.contains name then anchorTextParts rest else anchorTextParts rest
  | .text s :: rest =>
    let t := rustTrim s
    if t ≠ "" && !(rustStartsWith t "<") then t :: anchorTextParts rest else anchorTextParts rest

/-- Last fallback of `extract_link_text` (lines 132-143): an image
descendant's `alt` rendered as `[Image: alt]`, else the `"<no-text>"`
sentinel. -/
def linkTextFromAlt (a : Anchor) : String :=
  match a.imgAlt with
  | some alt =>
    let alt := rustTrim alt
    if alt ≠ "" && decide (alt.utf8ByteSize > MIN_ALT_TEXT_LENGTH) then "[Image: " ++ alt ++ "]"
    else "<no-text>"
  | none => "<no-text>"

/-- `aria-label` fallback of `extract_link_text` (lines 125-130). -/
def linkTextFromAria (a : Anchor) : String :=
  match a.ariaLabel with
  | some label =>
    let label := rustTrim label
    if label ≠ "" && !(rustStartsWith label "<") then label else linkTextFromAlt a
  | none => linkTextFromAlt a

/-- `LinkExtractor::extract_link_text` (lines 88-144): concatenated
descendant text, falling back to `title`, `aria-label`, image `alt`, and
finally the `"<no-text>"` sentinel. -/
def extract_link_text (a : Anchor) : String :=
  let combined := rustTrim (String.intercalate " " (anchorTextParts a.nodes))
  if combined ≠ "" && decide (combined.utf8ByteSize > 1) then combined
  else
    match a.title with
    | some title =>
      let title := rustTrim title
      if title ≠ "" && !(rustStartsWith title "<") then title else linkTextFromAria a
    | none => linkTextFromAria a

/-- `src/links.rs` lines 179-187: `noise_patterns`. -/
def noisePatterns : List String :=
  ["skip to", "skip navigation", "accessibility",
   "terms of service", "privacy policy", "cookie policy",
   "subscribe", "newsletter", "rss", "atom",
   "print", "share", "tweet", "facebook", "linkedin",
   "advertisement", "sponsored", "ad", "ads",
   "close", "×", "✕", "menu", "toggle",
   "link", "image", "img", "src", "alt"]

/-- `src/links.rs` lines 196: `image_extensions`. -/
def imageExtensions : List String :=
  [".jpg", ".jpeg", ".png", ".gif", ".svg", ".webp", ".bmp", ".ico"]

/-- `LinkExtractor::is_noise_link` (lines 146-219). The Rust function is a
chain of early `return true` tests falling through to `false`; that chain
is written as the disjunction of the tests, in source order. The bound
variables `text_lower`/`url_lower` are inlined. -/
def is_noise_link (text url : String) : Bool :=
  (text == "<no-text>")
  || (rustStartsWith (rustTrim text) "<" &&
      ((rustStartsWith text "<source media" || rustStartsWith text "<img alt")
       || (strContains text "<img" || strContains text "<source"
           || strContains text "<video" || strContains text "<audio")))
  || (rustTrim text == "" || decide ((rustTrim text).utf8ByteSize < 2))
  || (decide ((rustTrim text).utf8ByteSize = 1) &&
      !(match (rustTrim text).data with
        | c :: _ => c.isAlphanum
        | [] => false))
  || noisePatterns.any (fun pattern =>
       strContains (rustLower text) pattern &&
       decide ((rustLower text).utf8ByteSize < MAX_NOISE_TEXT_LENGTH))
  || imageExtensions.any (fun ext => rustEndsWith (rustLower url) ext)
  || decide (url.utf8ByteSize > MAX_URL_LENGTH)
  || (strContains (rustLower url) "#" && !strContains (rustLower url) "http")
  || (rustStartsWith (rustLower url) "data:" || rustStartsWith (rustLower url) "javascript:")

/-- `LinkExtractor::clean_link_text` (lines 221-231): trim, cap at 100
characters, then re-join the trimmed non-empty lines with spaces. -/
def clean_link_text (text : String) : String :=
  String.intercalate " "
    ((rustLines (rustTake (rustTrim text) MAX_LINK_TEXT_LENGTH)).map rustTrim
      |>.filter (fun line => line ≠ ""))

/-- The view of a resolved `url::Url` value that `extract_links` reads:
its scheme and its serialized absolute form (`as_str`/`to_string`). -/
structure RUrl where
  scheme : String
  full : String
deriving Repr, DecidableEq

/-- The per-anchor loop of `extract_links` (lines 33-62): resolve the
href (the `url` crate's `base.join`, an oracle `resolve` closed over the
base), skip non-http(s) schemes, skip too-short text, skip noise links,
and number the survivors with a running `index` starting at 1. -/
def extractLinksAux (resolve : String → Option RUrl) : List Anchor → Nat → List Link
  | [], _ => []
  | a :: rest, index =>
    match resolve a.href with
    | none => extractLinksAux resolve rest index
    | some u =>
      if !(rustStartsWith u.scheme "http") then extractLinksAux resolve rest index
      else
        let text := extract_link_text a
        if decide (text.utf8ByteSize < MIN_LINK_TEXT_LENGTH) then extractLinksAux resolve rest index
        else if is_noise_link text u.full then extractLinksAux resolve rest index
        else { text := clean_link_text text, url := u.full, index := index }
          :: extractLinksAux resolve rest (index + 1)

/-- The dedup pass of `extract_links` (lines 64-72): keep a link iff its
URL was not seen before (the `HashSet::insert` test), first occurrence
wins. -/
def dedupByUrl : List Link → List String → List Link
  | [], _ => []
  | l :: rest, seen =>
    if l.url ∈ seen then dedupByUrl rest seen
    else l :: dedupByUrl rest (l.url :: seen)

/-- The renumber pass of `extract_links` (lines 74-77): position `i`
(0-based) gets ordinal `i + 1`. -/
def renumberFrom : Nat → List Link → List Link
  | _, [] => []
  | i, l :: rest => { l with index := i + 1 } :: renumberFrom (i + 1) rest

/-- `LinkExtractor::extract_links` (lines 25-82). `parse` is the `url`
crate's `Url::parse` (canonical serialization on success), applied to the
base URL; `resolve` is `base.join` closed over that base; the `scraper`
document query `a[href]` is the `anchors` input. -/
def LinkExtractor.extract_links (parse : String → Option String)
    (resolve : String → Option RUrl) (anchors : List Anchor) (base_url : String) :
    Except String (List Link) :=
  match parse base_url with
  | none => Except.error "invalid base url"
  | some _ => Except.ok (renumberFrom 0 (dedupByUrl (extractLinksAux resolve anchors 1) []))

-- ## Lemmas about dedup / renumber

theorem renumberFrom_length : ∀ (ls : List Link) (k : Nat), (renumberFrom k ls).length = ls.length
  | [], _ => rfl
  | _ :: rest, k => by
    simp only [renumberFrom, List.length_cons]
    rw [renumberFrom_length rest (k + 1)]

theorem renumberFrom_get (ls : List Link) : ∀ (k i : Nat) (h : i < (renumberFrom k ls).length),
    ((renumberFrom k ls).get ⟨i, h⟩).index = k + i + 1 := by
  induction ls with
  | nil => intro k i h; simp [renumberFrom] at h
  | cons l rest ih =>
    intro k i h
    cases i with
    | zero => simp [renumberFrom]
    | succ j =>
      have hj : j < (renumberFrom (k + 1) rest).length := by
        simpa [renumberFrom] using h
      have := ih (k + 1) j hj
      simp only [renumberFrom, List.get_cons_succ]
      rw [this]
      omega

theorem renumberFrom_map (ls : List Link) : ∀ k : Nat,
    (renumberFrom k ls).map (fun l => (l.url, l.text)) = ls.map (fun l => (l.url, l.text)) := by
  induction ls with
  | nil => intro k; rfl
  | cons l rest ih =>
    intro k
    simp only [renumberFrom, List.map_cons]
    rw [ih (k + 1)]

theorem renumberFrom_map_url (ls : List Link) : ∀ k : Nat,
    (renumberFrom k ls).map Link.url = ls.map Link.url := by
  induction ls with
  | nil => intro k; rfl
  | cons l rest ih =>
    intro k
    simp only [renumberFrom, List.map_cons]
    rw [ih (k + 1)]

theorem dedupByUrl_not_seen : ∀ (ls : List Link) (seen : List String),
    ∀ l ∈ dedupByUrl ls seen, l.url ∉ seen := by
  intro ls
  induction ls with
  | nil => intro seen l hl; simp [dedupByUrl] at hl
  | cons a rest ih =>
    intro seen l hl
    by_cases hs : a.url ∈ seen
    · rw [dedupByUrl, if_pos hs] at hl
      exact ih seen l hl
    · rw [dedupByUrl, if_neg hs] at hl
      rcases List.mem_cons.mp hl with heq | hmem
      · subst heq; exact hs
      · have := ih (a.url :: seen) l hmem
        intro hcontra
        exact this (List.mem_cons_of_mem _ hcontra)

theorem dedupByUrl_nodup : ∀ (ls : List Link) (seen : List String),
    ((dedupByUrl ls seen).map Link.url).Nodup := by
  intro ls
  induction ls with
  | nil => intro seen; simp [dedupByUrl]
  | cons a rest ih =>
    intro seen
    by_cases hs : a.url ∈ seen
    · rw [dedupByUrl, if_pos hs]
      exact ih seen
    · rw [dedupByUrl, if_neg hs]
      simp only [List.map_cons, List.nodup_cons]
      refine ⟨?_, ih (a.url :: seen)⟩
      intro hcontra
      obtain ⟨l, hl, hurl⟩ := List.mem_map.mp hcontra
      have := dedupByUrl_not_seen rest (a.url :: seen) l hl
      exact this (by rw [hurl]; exact List.mem_cons_self _ _)

theorem dedupByUrl_find (u : String) (l0 : Link) : ∀ (ls : List Link) (seen : List String),
    ls.find? (fun l => l.url == u) = some l0 → u ∉ seen → l0 ∈ dedupByUrl ls seen := by
  intro ls
  induction ls with
  | nil => intro seen hf; simp [List.find?] at hf
  | cons a rest ih =>
    intro seen hf hseen
    rw [List.find?] at hf
    cases hbeq : (a.url == u) with
    | true =>
      rw [hbeq] at hf
      have ha : a = l0 := by simpa using hf
      have hau : a.url = u := by simpa using hbeq
      rw [dedupByUrl, if_neg (by rw [hau]; exact hseen)]
      rw [ha]
      exact List.mem_cons_self _ _
    | false =>
      rw [hbeq] at hf
      have hau : a.url ≠ u := by simpa using hbeq
      by_cases hs : a.url ∈ seen
      · rw [dedupByUrl, if_pos hs]
        exact ih seen hf hseen
      · rw [dedupByUrl, if_neg hs]
        refine List.mem_cons_of_mem _ (ih (a.url :: seen) hf ?_)
        intro hcontra
        rcases List.mem_cons.mp hcontra with heq | hmem
        · exact hau heq.symm
        · exact hseen hmem

theorem filter_url_eq_nil (u : String) : ∀ (r : List Link),
    (∀ l ∈ r, l.url ≠ u) → r.filter (fun l => l.url == u) = [] := by
  intro r
  induction r with
  | nil => intro _; rfl
  | cons a rest ih =>
    intro hall
    rw [List.filter_cons]
    have hau : (a.url == u) = false := by
      simpa using hall a (List.mem_cons_self _ _)
    rw [hau]
    simp only [Bool.false_eq_true, if_false]
    exact ih (fun l hl => hall l (List.mem_cons_of_mem _ hl))

theorem nodup_url_filter_length (u : String) (l0 : Link) : ∀ (r : List Link),
    (r.map Link.url).Nodup → l0 ∈ r → l0.url = u →
    (r.filter (fun l => l.url == u)).length = 1 := by
  intro r
  induction r with
  | nil => intro _ hl0; simp at hl0
  | cons a rest ih =>
    intro hn hl0 hu
    have hn' : (a.url :: rest.map Link.url).Nodup := by
      simpa only [List.map_cons] using hn
    obtain ⟨hnotin, hrest⟩ := List.nodup_cons.mp hn'
    rw [List.filter_cons]
    rcases List.mem_cons.mp hl0 with heq | hmem
    · subst heq
      rw [show (l0.url == u) = true by simpa using hu]
      simp only [if_true, List.length_cons]
      have : rest.filter (fun l => l.url == u) = [] := by
        apply filter_url_eq_nil
        intro l hl hcontra
        exact hnotin (List.mem_map.mpr ⟨l, hl, by rw [hcontra, ← hu]⟩)
      rw [this]
      rfl
    · have hau : (a.url == u) = false := by
        simp only [beq_eq_false_iff_ne, ne_eq]
        intro hcontra
        exact hnotin (List.mem_map.mpr ⟨l0, hmem, by rw [hu, ← hcontra]⟩)
      rw [hau]
      simp only [Bool.false_eq_true, if_false]
      exact ih hrest hmem hu

/-- C5: whenever `extract_links` succeeds, the produced link list has
pairwise-distinct resolved URLs, its ordinals are contiguous `1..k`, and
for every URL that occurs among the pre-dedup candidates the final list
holds exactly one entry with that URL, carrying the text of the first
candidate (first occurrence in document order) with that URL. -/
theorem claim_C5_link_dedup (parse : String → Option String) (resolve : String → Option RUrl)
    (anchors : List Anchor) (base_url : String) (links : List Link)
    (hok : LinkExtractor.extract_links parse resolve anchors base_url = Except.ok links) :
    (links.map Link.url).Nodup ∧
    (∀ i (h : i < links.length), (links.get ⟨i, h⟩).index = i + 1) ∧
    (∀ u l0, (extractLinksAux resolve anchors 1).find? (fun l => l.url == u) = some l0 →
      (links.filter (fun l => l.url == u)).length = 1 ∧
      ∃ l ∈ links, l.url = u ∧ l.text = l0.text) := by
  have hlinks : links = renumberFrom 0 (dedupByUrl (extractLinksAux resolve anchors 1) []) := by
    unfold LinkExtractor.extract_links at hok
    cases hp : parse base_url with
    | none => rw [hp] at hok; simp at hok
    | some s =>
      rw [hp] at hok
      have := Except.ok.inj hok
      exact this.symm
  subst hlinks
  set cand := extractLinksAux resolve anchors 1 with hcand
  refine ⟨?_, ?_, ?_⟩
  · rw [renumberFrom_map_url]
    exact dedupByUrl_nodup cand []
  · intro i h
    have := renumberFrom_get (dedupByUrl cand []) 0 i h
    rw [this]
    omega
  · intro u l0 hfind
    have hmem : l0 ∈ dedupByUrl cand [] := dedupByUrl_find u l0 cand [] hfind (by simp)
    have hl0u : l0.url = u := by
      have := List.find?_some hfind
      simpa using this
    have hpair : (l0.url, l0.text) ∈
        (renumberFrom 0 (dedupByUrl cand [])).map (fun l => (l.url, l.text)) := by
      rw [renumberFrom_map]
      exact List.mem_map.mpr ⟨l0, hmem, rfl⟩
    obtain ⟨l, hl, hlp⟩ := List.mem_map.mp hpair
    have hlu : l.url = l0.url := (Prod.mk.injEq _ _ _ _).mp hlp |>.1
    have hlt : l.text = l0.text := (Prod.mk.injEq _ _ _ _).mp hlp |>.2
    refine ⟨?_, l, hl, by rw [hlu, hl0u], hlt⟩
    apply nodup_url_filter_length u l _ (by rw [renumberFrom_map_url]; exact dedupByUrl_nodup cand []) hl
    rw [hlu, hl0u]

-- ## Concrete documents for witnesses / counterexamples

/-- A total `Url::parse` oracle for witnesses: every input parses and is
already canonical. -/
def demoParseOk : String → Option String := fun s => some s

/-- `base.join` oracle for a demo document on `https://example.com/`,
where two different hrefs resolve to the same absolute URL. -/
def demoResolveC5 : String → Option RUrl := fun href =>
  if href = "/a" then some { scheme := "https", full := "https://example.com/a" }
  else if href = "a" then some { scheme := "https", full := "https://example.com/a" }
  else if href = "/b" then some { scheme := "https", full :=  "https://example.com/b" }
  else none

def demoAnchorsC5 : List Anchor :=
  [{ href := "/a", nodes := [DomNode.text "First story"],
     title := none, ariaLabel := none, imgAlt := none },
   { href := "a", nodes := [DomNode.text "Repeat visit"],
     title := none, ariaLabel := none, imgAlt := none },
   { href := "/b", nodes := [DomNode.text "Second story"],
     title := none, ariaLabel := none, imgAlt := none }]

def demoLinksC5 : List Link :=
  renumberFrom 0 (dedupByUrl (extractLinksAux demoResolveC5 demoAnchorsC5 1) [])

set_option maxRecDepth 100000 in
theorem claim_C5_link_dedup_witness :
    (demoLinksC5.map Link.url).Nodup ∧
    (∀ i (h : i < demoLinksC5.length), (demoLinksC5.get ⟨i, h⟩).index = i + 1) ∧
    ((demoLinksC5.filter (fun l => l.url == "https://example.com/a")).length = 1 ∧
     ∃ l ∈ demoLinksC5, l.url = "https://example.com/a" ∧ l.text = "First story") := by
  have hmain := claim_C5_link_dedup demoParseOk demoResolveC5 demoAnchorsC5
    "https://example.com/" demoLinksC5 rfl
  refine ⟨hmain.1, hmain.2.1, ?_⟩
  exact hmain.2.2 "https://example.com/a"
    { text := "First story", url := "https://example.com/a", index := 1 } (by decide)

-- ## Noise filtering (C6, C7)

/-- If the lowercased text contains a noise phrase and its byte length is
under `MAX_NOISE_TEXT_LENGTH`, `is_noise_link` reports noise. -/
theorem is_noise_of_pattern (text url : String)
    (hpat : ∃ p ∈ noisePatterns, strContains (rustLower text) p = true)
    (hshort : (rustLower text).utf8ByteSize < MAX_NOISE_TEXT_LENGTH) :
    is_noise_link text url = true := by
  obtain ⟨p, hp, hc⟩ := hpat
  have hany : (noisePatterns.any (fun pattern =>
      strContains (rustLower text) pattern &&
      decide ((rustLower text).utf8ByteSize < MAX_NOISE_TEXT_LENGTH))) = true := by
    rw [List.any_eq_true]
    refine ⟨p, hp, ?_⟩
    rw [hc, decide_eq_true hshort]
    rfl
  unfold is_noise_link
  rw [hany]
  simp

/-- C6 (amended): an anchor whose computed link text contains a noise
phrase (case-insensitively) **and** whose lowercased text is shorter than
`MAX_NOISE_TEXT_LENGTH = 20` bytes is classified as noise and contributes
nothing to the extracted link list (the list is the same as without the
anchor). -/
theorem claim_C6_noise_phrase_short (resolve : String → Option RUrl) (a : Anchor)
    (rest : List Anchor) (k : Nat) (u : RUrl)
    (hres : resolve a.href = some u)
    (hpat : ∃ p ∈ noisePatterns, strContains (rustLower (extract_link_text a)) p = true)
    (hshort : (rustLower (extract_link_text a)).utf8ByteSize < MAX_NOISE_TEXT_LENGTH) :
    is_noise_link (extract_link_text a) u.full = true ∧
    extractLinksAux resolve (a :: rest) k = extractLinksAux resolve rest k := by
  have hn := is_noise_of_pattern (extract_link_text a) u.full hpat hshort
  refine ⟨hn, ?_⟩
  simp only [extractLinksAux, hres]
  by_cases hs : rustStartsWith u.scheme "http" = true
  · by_cases hlen : (extract_link_text a).utf8ByteSize < MIN_LINK_TEXT_LENGTH
    · simp [hs, hlen]
    · simp [hs, hlen, hn]
  · have hs' : rustStartsWith u.scheme "http" = false := by
      cases hb : rustStartsWith u.scheme "http" with
      | false => rfl
      | true => exact absurd hb hs
    simp [hs']

def demoSkipAnchor : Anchor :=
  { href := "/skip", nodes := [DomNode.text "Skip to content"],
    title := none, ariaLabel := none, imgAlt := none }

def demoResolveC6w : String → Option RUrl := fun href =>
  if href = "/skip" then some { scheme := "https", full := "https://example.com/skip-target" }
  else none

set_option maxRecDepth 100000 in
theorem claim_C6_noise_phrase_short_witness :
    is_noise_link (extract_link_text demoSkipAnchor) "https://example.com/skip-target" = true ∧
    extractLinksAux demoResolveC6w [demoSkipAnchor] 1 = extractLinksAux demoResolveC6w [] 1 :=
  claim_C6_noise_phrase_short demoResolveC6w demoSkipAnchor [] 1
    { scheme := "https", full := "https://example.com/skip-target" } (by decide)
    ⟨"skip to", by decide, by decide⟩ (by decide)

def demoResolveC6 : String → Option RUrl := fun href =>
  if href = "/about" then some { scheme := "https", full := "https://example.com/about" }
  else none

def demoAnchorsC6 : List Anchor :=
  [{ href := "/about", nodes := [DomNode.text "Privacy policy and terms"],
     title := none, ariaLabel := none, imgAlt := none }]

def demoLinksC6 : List Link :=
  renumberFrom 0 (dedupByUrl (extractLinksAux demoResolveC6 demoAnchorsC6 1) [])

set_option maxRecDepth 100000 in
/-- C6 counterexample: the anchor text "Privacy policy and terms"
contains the noise phrase "privacy policy", but because its lowercased
length (24 bytes) is not below `MAX_NOISE_TEXT_LENGTH = 20`, the link is
NOT excluded: it survives `is_noise_link` and appears in the extracted
link list. The claim's "regardless of the total length of the text" fails
on the code. -/
theorem claim_C6_counterexample :
    strContains (rustLower "Privacy policy and terms") "privacy policy" = true ∧
    (rustLower "Privacy policy and terms").utf8ByteSize = 24 ∧
    is_noise_link "Privacy policy and terms" "https://example.com/about" = false ∧
    demoLinksC6 = [{ text := "Privacy policy and terms",
                     url := "https://example.com/about", index := 1 }] := by
  refine ⟨by decide, by decide, by decide, by decide⟩

def demoResolveC7 : String → Option RUrl := fun href =>
  if href = "#section" then
    some { scheme := "https", full := "https://example.com/page#section" }
  else none

def demoAnchorsC7 : List Anchor :=
  [{ href := "#section", nodes := [DomNode.text "Section two"],
     title := none, ariaLabel := none, imgAlt := none }]

def demoLinksC7 : List Link :=
  renumberFrom 0 (dedupByUrl (extractLinksAux demoResolveC7 demoAnchorsC7 1) [])

set_option maxRecDepth 100000 in
/-- C7: a same-page fragment anchor (`href="#section"`, resolved by
`base.join` to `https://example.com/page#section`) is NOT excluded: the
fragment test `url.contains("#") && !url.contains("http")` is applied to
the resolved absolute URL, which always contains "http" (the scheme
filter admits only http/https), so it can never fire and the link lands
in the extracted list. This contradicts the spec's "same-page fragment
without host" exclusion and the code's own `// Skip fragment-only links`
comment. -/
theorem claim_C7_fragment_link_included :
    demoLinksC7 = [{ text := "Section two",
                     url := "https://example.com/page#section", index := 1 }] ∧
    strContains (rustLower "https://example.com/page#section") "#" = true ∧
    strContains (rustLower "https://example.com/page#section") "http" = true := by
  refine ⟨by decide, by decide, by decide⟩

-- ## Session controller (`src/browser.rs`)

/-- `src/ui/mod.rs` lines 20-48: `pub enum BrowserState` (imported into
`browser.rs` as `UIState`). -/
inductive UIState where
  | Loading (url : String) (progress : Nat) (stage : String)
  | Page (url title summary : String) (links : List Link)
  | URLInput (input : String)
  | URLSuggestions (original_url error_message : String)
      (suggestions : List String) (selected_index : Nat)
  | History (entries : List HistoryEntry) (current_index : Option Nat)
  | Error (message : String)
deriving Repr, DecidableEq

/-- `src/ui/mod.rs` lines 52-73: `pub enum UserAction`. -/
inductive UserAction where
  | Quit
  | FollowLink (index : Nat)
  | FollowSelectedLink
  | GoBack
  | GoForward
  | ShowHistory
  | EnterUrl
  | ConfirmInput (url : String)
  | CancelInput
  | Refresh
  | ScrollUp
  | ScrollDown
  | SelectPrevLink
  | SelectNextLink
  | InputChar (c : Char)
  | Backspace
  | SelectPrevSuggestion
  | SelectNextSuggestion
  | ConfirmSuggestion
  | DismissError
deriving Repr, DecidableEq

/-- The mutable fields of `pub struct Browser` (`src/browser.rs` lines
13-24) that the session logic reads and writes. The collaborator handles
(`client`, `extractor`, `openai`, `link_extractor`, `ui`) live in `Env`
below. -/
structure BrowserState where
  history : History
  currentUrl : Option String
  currentLinks : List Link
  currentState : UIState
  urlInput : String
deriving Repr, DecidableEq

/-- The view of a parsed `url::Url` that `generate_fallback_suggestions`
and `is_valid_url_format` read: `scheme()`, `host_str()`, `path()`. -/
structure UrlParts where
  scheme : String
  host : Option String
  path : String
deriving Repr, DecidableEq

/-- The external collaborators of the session controller, at the
interfaces `browser.rs` consumes them:
`parse` is `url::Url::parse` returning the canonical serialization
(`none` on a parse error); `parseParts` is the same parser's
scheme/host/path view; `fetch` is `WebClient::fetch`;
`extractText` is `TextExtractor::extract_text`; `extractTitle` is
`Browser::extract_title` (a `scraper` title query); `anchors` is the
`scraper` `a[href]` selection of a document; `resolve base` is the `url`
crate's `base.join`; `summarize`/`suggest` are the `OpenAIClient` calls;
`selectedLink` is `ui.get_selected_link()`. Errors are the collaborators'
error strings (`anyhow` display). -/
structure Env where
  parse : String → Option String
  parseParts : String → Option UrlParts
  fetch : String → Except String String
  extractText : String → Except String String
  extractTitle : String → String
  anchors : String → List Anchor
  resolve : String → String → Option RUrl
  summarize : String → String → Except String String
  suggest : String → String → Except String (List String)
  selectedLink : Nat

/-- `Browser::normalize_url` (`src/browser.rs` lines 438-449): trim,
prepend `https://` when no scheme is present, then parse/canonicalize,
failing fast with a URL-syntax error. -/
def normalize_url (parse : String → Option String) (url : String) : Except String String :=
  let url := rustTrim url
  if rustStartsWith url "http://" || rustStartsWith url "https://" then
    match parse url with
    | some s => Except.ok s
    | none => Except.error ("invalid url: " ++ url)
  else
    match parse ("https://" ++ url) with
    | some s => Except.ok s
    | none => Except.error ("invalid url: https://" ++ url)

/-- `Browser::is_valid_url_format` (lines 407-420): parses and requires a
host containing a dot with at least 3 bytes. -/
def is_valid_url_format (parseParts : String → Option UrlParts) (url : String) : Bool :=
  match parseParts url with
  | some parsed =>
    match parsed.host with
    | some host => strContains host "." && decide (host.utf8ByteSize ≥ 3)
    | none => false
  | none => false

/-- `Browser::generate_fallback_suggestions` (lines 366-405). -/
def generate_fallback_suggestions (parseParts : String → Option UrlParts)
    (failed_url : String) : List String :=
  let url_lower := rustLower failed_url
  let clean_input := rustTrim failed_url
  let suggestions : List String :=
    if rustStartsWith url_lower "http" then
      if !strContains url_lower "www." then
        match parseParts url_lower with
        | some parsed =>
          match parsed.host with
          | some host => [parsed.scheme ++ "://www." ++ host ++ parsed.path]
          | none => []
        | none => []
      else []
    else
      if !strContains clean_input "." then
        ["https://www." ++ clean_input ++ ".com",
         "https://" ++ clean_input ++ ".com",
         "https://www." ++ clean_input ++ ".org",
         "https://www." ++ clean_input ++ ".net",
         "https://" ++ clean_input ++ ".io"]
      else
        ["https://www." ++ clean_input,
         "https://" ++ clean_input,
         "http://www." ++ clean_input,
         "http://" ++ clean_input]
  (suggestions.filter (fun url => is_valid_url_format parseParts url)).take 5

/-- `Browser::get_url_suggestions` (lines 356-364): the AI suggester,
falling back to the local heuristics on its failure. Always `Ok` in the
source, hence a plain list here. -/
def get_url_suggestions (env : Env) (failed_url error_message : String) : List String :=
  match env.suggest failed_url error_message with
  | Except.ok suggestions => suggestions
  | Except.error _ => generate_fallback_suggestions env.parseParts failed_url

/-- `Browser::fetch_and_process_with_progress` (lines 309-339): fetch,
extract text, extract title and links, then summarize with recovery. The
`update_loading_progress` calls only redraw the `Loading` state and sleep;
they do not affect the result and are omitted. -/
def fetch_and_process (env : Env) (url : String) :
    Except String (String × String × List Link) :=
  match env.fetch url with
  | Except.error e => Except.error e
  | Except.ok html =>
    match env.extractText html with
    | Except.error e => Except.error e
    | Except.ok text =>
      let title := env.extractTitle html
      match LinkExtractor.extract_links env.parse (env.resolve url) (env.anchors html) url with
      | Except.error e => Except.error e
      | Except.ok links =>
        let summary :=
          if !(rustTrim text == "") then
            match env.summarize text url with
            | Except.ok summary => summary
            | Except.error e =>
              "Failed to generate summary: " ++ e ++ "\n\nRaw text:\n" ++ rustTake text 1000
          else "No content found on this page."
        Except.ok (title, summary, links)

/-- `Browser::navigate` (lines 46-95). The returned `Option String` is
the `anyhow` error that `navigate` propagates with `?` (only the
normalization failure does; render calls are the external renderer). On a
pipeline failure the suggestion flow runs and the function returns `Ok`. -/
def Browser.navigate (env : Env) (b : BrowserState) (url : String) :
    BrowserState × Option String :=
  match normalize_url env.parse url with
  | Except.error e => (b, some e)
  | Except.ok normalized_url =>
    let b1 := { b with currentUrl := some normalized_url,
                       currentState := UIState.Loading normalized_url 0 "Starting..." }
    match fetch_and_process env normalized_url with
    | Except.ok (title, summary, links) =>
      ({ b1 with currentLinks := links,
                 history := b1.history.add normalized_url title,
                 currentState := UIState.Page normalized_url title summary links }, none)
    | Except.error e =>
      let suggestions := get_url_suggestions env url e
      if !suggestions.isEmpty then
        ({ b1 with currentState :=
            UIState.URLSuggestions url e suggestions 0 }, none)
      else
        ({ b1 with currentState :=
            UIState.Error ("Failed to load page: " ++ e) }, none)

/-- Result of one iteration of `Browser::main_loop` (lines 103-306):
either the loop continues with a new state, breaks on `Quit`, or an error
propagates out of the loop body with `?` and ends the loop. -/
inductive StepResult where
  | cont (b : BrowserState)
  | quitted (b : BrowserState)
  | fatal (b : BrowserState) (e : String)
deriving Repr, DecidableEq

/-- Lift a `navigate` call inside a `main_loop` arm: `self.navigate(&url).await?`. -/
def stepNavigate (env : Env) (b : BrowserState) (url : String) : StepResult :=
  match Browser.navigate env b url with
  | (b', none) => StepResult.cont b'
  | (b', some e) => StepResult.fatal b' e

/-- The placeholder `Page` state used by the `GoBack`-from-view /
`CancelInput` / error-`Refresh` / `DismissError` arms (summaries are not
cached). -/
def pagePlaceholder (b : BrowserState) (current : HistoryEntry) : UIState :=
  UIState.Page current.url current.title "Use 'r' to refresh for summary" b.currentLinks

/-- One iteration of `Browser::main_loop` (lines 110-302), arm by arm in
source order. Pure-render actions (`ScrollUp`, `ScrollDown`,
`SelectPrevLink`, `SelectNextLink`) only touch the external renderer and
leave the modelled state unchanged. -/
def Browser.step (env : Env) (b : BrowserState) : UserAction → StepResult
  | UserAction.Quit => StepResult.quitted b
  | UserAction.FollowLink index =>
    match b.currentLinks.find? (fun l => l.index == index) with
    | some link => stepNavigate env b link.url
    | none => StepResult.cont b
  | UserAction.FollowSelectedLink =>
    match b.currentLinks.get? env.selectedLink with
    | some link => stepNavigate env b link.url
    | none => StepResult.cont b
  | UserAction.GoBack =>
    match b.currentState with
    | UIState.History _ _ =>
      match b.history.current with
      | some current => StepResult.cont { b with currentState := pagePlaceholder b current }
      | none => StepResult.cont b
    | UIState.Error _ =>
      match b.history.current with
      | some current => StepResult.cont { b with currentState := pagePlaceholder b current }
      | none => StepResult.cont b
    | _ =>
      match b.history.go_back with
      | (h', some entry) => stepNavigate env { b with history := h' } entry.url
      | (h', none) => StepResult.cont { b with history := h' }
  | UserAction.GoForward =>
    match b.history.go_forward with
    | (h', some entry) => stepNavigate env { b with history := h' } entry.url
    | (h', none) => StepResult.cont { b with history := h' }
  | UserAction.ShowHistory =>
    let entries := b.history.list
    let current_index := b.history.current.bind
      (fun current => entries.findIdx? (fun e => e.url == current.url))
    StepResult.cont { b with currentState := UIState.History entries current_index }
  | UserAction.EnterUrl =>
    StepResult.cont { b with urlInput := "", currentState := UIState.URLInput "" }
  | UserAction.ConfirmInput url =>
    if !(url == "") then stepNavigate env b url
    else StepResult.cont b
  | UserAction.CancelInput =>
    match b.history.current with
    | some current => StepResult.cont { b with currentState := pagePlaceholder b current }
    | none => StepResult.cont b
  | UserAction.Refresh =>
    match b.currentState with
    | UIState.Error _ =>
      match b.history.current with
      | some current => StepResult.cont { b with currentState := pagePlaceholder b current }
      | none => StepResult.cont b
    | _ =>
      match b.currentUrl with
      | some url => stepNavigate env b url
      | none => StepResult.cont b
  | UserAction.ScrollUp => StepResult.cont b
  | UserAction.ScrollDown => StepResult.cont b
  | UserAction.SelectPrevLink => StepResult.cont b
  | UserAction.SelectNextLink => StepResult.cont b
  | UserAction.InputChar c =>
    let input := b.urlInput.push c
    StepResult.cont { b with urlInput := input, currentState := UIState.URLInput input }
  | UserAction.Backspace =>
    let input := rustPop b.urlInput
    StepResult.cont { b with urlInput := input, currentState := UIState.URLInput input }
  | UserAction.SelectPrevSuggestion =>
    match b.currentState with
    | UIState.URLSuggestions original_url error_message suggestions selected_index =>
      let new_index :=
        if selected_index > 0 then selected_index - 1 else suggestions.length - 1
      StepResult.cont { b with currentState :=
        (UIState.URLSuggestions original_url error_message suggestions new_index) }
    | _ => StepResult.cont b
  | UserAction.SelectNextSuggestion =>
    match b.currentState with
    | UIState.URLSuggestions original_url error_message suggestions selected_index =>
      let new_index :=
        if selected_index < suggestions.length - 1 then selected_index + 1 else 0
      StepResult.cont { b with currentState :=
        (UIState.URLSuggestions original_url error_message suggestions new_index) }
    | _ => StepResult.cont b
  | UserAction.ConfirmSuggestion =>
    match b.currentState with
    | UIState.URLSuggestions _ _ suggestions selected_index =>
      match suggestions.get? selected_index with
      | some selected_url => stepNavigate env b selected_url
      | none => StepResult.cont b
    | _ => StepResult.cont b
  | UserAction.DismissError =>
    match b.history.current with
    | some current => StepResult.cont { b with currentState := pagePlaceholder b current }
    | none => StepResult.cont { b with currentState := UIState.URLInput "" }

-- ## C9: summarizer failures are recovered inside the pipeline

/-- C9: in the summarize stage, (a) empty/whitespace-only extracted text
short-circuits to the fixed placeholder without consulting the summarizer
(the result is the same for every summarizer), and (b) when the
summarizer fails, the pipeline still succeeds, with the summary embedding
the error plus the first 1000 characters of the extracted text — a
summarizer failure never yields a pipeline failure. -/
theorem claim_C9_summarizer_recovery (env : Env) (url html text : String) (links : List Link)
    (hf : env.fetch url = Except.ok html)
    (ht : env.extractText html = Except.ok text)
    (hl : LinkExtractor.extract_links env.parse (env.resolve url) (env.anchors html) url
      = Except.ok links) :
    (rustTrim text = "" →
      (∀ f g, fetch_and_process { env with summarize := f } url
            = fetch_and_process { env with summarize := g } url) ∧
      fetch_and_process env url
        = Except.ok (env.extractTitle html, "No content found on this page.", links)) ∧
    (∀ e, env.summarize text url = Except.error e → rustTrim text ≠ "" →
      fetch_and_process env url
        = Except.ok (env.extractTitle html,
            "Failed to generate summary: " ++ e ++ "\n\nRaw text:\n" ++ rustTake text 1000,
            links)) := by
  constructor
  · intro htrim
    have hcond : (!(rustTrim text == "")) = false := by
      rw [htrim]
      rfl
    constructor
    · intro f g
      simp only [fetch_and_process, hf, ht, hl, hcond, Bool.false_eq_true, if_false]
    · simp only [fetch_and_process, hf, ht, hl, hcond, Bool.false_eq_true, if_false]
  · intro e hsum htrim
    have hcond : (!(rustTrim text == "")) = true := by
      have : (rustTrim text == "") = false := by
        simpa using htrim
      rw [this]
      rfl
    simp only [fetch_and_process, hf, ht, hl, hcond, if_true, hsum]

def demoEnvC9 : Env :=
  { parse := fun s => some s,
    parseParts := fun _ => none,
    fetch := fun _ => Except.ok "<html><body>Interesting article</body></html>",
    extractText := fun _ => Except.ok "Interesting article",
    extractTitle := fun _ => "Untitled",
    anchors := fun _ => [],
    resolve := fun _ _ => none,
    summarize := fun _ _ => Except.error "rate limited",
    suggest := fun _ _ => Except.error "rate limited",
    selectedLink := 0 }

set_option maxRecDepth 100000 in
theorem claim_C9_summarizer_recovery_witness :
    fetch_and_process demoEnvC9 "https://example.com/" =
      Except.ok ("Untitled",
        "Failed to generate summary: rate limited\n\nRaw text:\nInteresting article",
        []) := by
  have h := (claim_C9_summarizer_recovery demoEnvC9 "https://example.com/"
    "<html><body>Interesting article</body></html>" "Interesting article" []
    rfl rfl rfl).2 "rate limited" rfl (by decide)
  rw [h]
  rfl

-- ## C10: pipeline failure leaves History and the link list untouched

/-- C10: when a navigation fails — the normalization fails, or it
succeeds and the pipeline then fails — the resulting browser state keeps
exactly the History and current link list it started with; they are
mutated only in the success branch of `navigate`. -/
theorem claim_C10_navigate_atomic (env : Env) (b : BrowserState) (url : String)
    (hfail : (∃ e, normalize_url env.parse url = Except.error e) ∨
             (∃ nurl e, normalize_url env.parse url = Except.ok nurl ∧
               fetch_and_process env nurl = Except.error e)) :
    (Browser.navigate env b url).1.history = b.history ∧
    (Browser.navigate env b url).1.currentLinks = b.currentLinks := by
  rcases hfail with ⟨e, hn⟩ | ⟨nurl, e, hn, hp⟩
  · unfold Browser.navigate
    constructor <;>
    · split
      · rfl
      · rename_i nurl' heq
        simp [hn] at heq
  · unfold Browser.navigate
    constructor <;>
    · split
      · rename_i e' heq
        simp [hn] at heq
      · rename_i nurl' heq
        rw [hn] at heq
        injection heq with h1
        subst h1
        split
        · rename_i heq2
          simp [hp] at heq2
        · rename_i e' heq2
          rw [hp] at heq2
          injection heq2 with h2
          subst h2
          by_cases hs : (get_url_suggestions env url e).isEmpty
          · simp [hs]
          · simp [hs]

def demoEnvC10 : Env :=
  { demoEnvC9 with fetch := fun _ => Except.error "connection refused" }

def demoPageB : BrowserState :=
  { history := (History.new.add "https://a.example/" "A"),
    currentUrl := some "https://a.example/",
    currentLinks := [{ text := "Next", url := "https://b.example/", index := 1 }],
    currentState := UIState.Page "https://a.example/" "A" "summary" [],
    urlInput := "" }

theorem claim_C10_navigate_atomic_witness :
    (Browser.navigate demoEnvC10 demoPageB "https://b.example/").1.history
      = demoPageB.history ∧
    (Browser.navigate demoEnvC10 demoPageB "https://b.example/").1.currentLinks
      = demoPageB.currentLinks :=
  claim_C10_navigate_atomic demoEnvC10 demoPageB "https://b.example/"
    (Or.inr ⟨"https://b.example/", "connection refused", by rfl, by rfl⟩)

-- ## C8: locally synthesized fallback suggestions

/-- C8 (amended): for an input with no scheme (lowercased input does not
start with "http") and no dot, the locally synthesized candidate list is
exactly `[https://www.X.com, https://X.com, https://www.X.org,
https://www.X.net, https://X.io]` (only `.com` appears both with and
without `www.`; `.org`/`.net` only with it, `.io` only without),
filtered to host-valid URLs and capped at 5. -/
theorem claim_C8_fallback_no_scheme_no_dot (parseParts : String → Option UrlParts)
    (input : String)
    (hscheme : rustStartsWith (rustLower input) "http" = false)
    (hdot : strContains (rustTrim input) "." = false) :
    generate_fallback_suggestions parseParts input =
      (["https://www." ++ rustTrim input ++ ".com",
        "https://" ++ rustTrim input ++ ".com",
        "https://www." ++ rustTrim input ++ ".org",
        "https://www." ++ rustTrim input ++ ".net",
        "https://" ++ rustTrim input ++ ".io"].filter
          (fun url => is_valid_url_format parseParts url)).take 5 := by
  simp only [generate_fallback_suggestions, hscheme, hdot, Bool.false_eq_true, if_false,
    Bool.not_false, if_true]

/-- The `url::Url::parse` view for the five "wired" candidates (scheme,
host, path as the `url` crate reports them). -/
def demoParse8 : String → Option UrlParts := fun s =>
  if s = "https://www.wired.com" then
    some { scheme := "https", host := some "www.wired.com", path := "/" }
  else if s = "https://wired.com" then
    some { scheme := "https", host := some "wired.com", path := "/" }
  else if s = "https://www.wired.org" then
    some { scheme := "https", host := some "www.wired.org", path := "/" }
  else if s = "https://www.wired.net" then
    some { scheme := "https", host := some "www.wired.net", path := "/" }
  else if s = "https://wired.io" then
    some { scheme := "https", host := some "wired.io", path := "/" }
  else none

set_option maxRecDepth 100000 in
/-- C8 counterexample: for input "wired" the synthesized candidate set is
NOT "each of .com/.org/.net/.io with and without www."; it is exactly the
five candidates of the code, so `https://wired.org`, `https://wired.net`
and `https://www.wired.io` are never suggested, under a parse oracle that
accepts every generated candidate. -/
theorem claim_C8_counterexample :
    generate_fallback_suggestions demoParse8 "wired" =
      ["https://www.wired.com", "https://wired.com", "https://www.wired.org",
       "https://www.wired.net", "https://wired.io"] ∧
    "https://wired.org" ∉ generate_fallback_suggestions demoParse8 "wired" ∧
    "https://wired.net" ∉ generate_fallback_suggestions demoParse8 "wired" ∧
    "https://www.wired.io" ∉ generate_fallback_suggestions demoParse8 "wired" := by
  refine ⟨by decide, by decide, by decide, by decide⟩

set_option maxRecDepth 100000 in
theorem claim_C8_fallback_no_scheme_no_dot_witness :
    rustStartsWith (rustLower "wired") "http" = false ∧
    strContains (rustTrim "wired") "." = false ∧
    generate_fallback_suggestions demoParse8 "wired" =
      (["https://www.wired.com", "https://wired.com", "https://www.wired.org",
        "https://www.wired.net", "https://wired.io"].filter
          (fun url => is_valid_url_format demoParse8 url)).take 5 ∧
    "https://www.wired.com" ∈ generate_fallback_suggestions demoParse8 "wired" ∧
    "https://wired.com" ∈ generate_fallback_suggestions demoParse8 "wired" := by
  refine ⟨by decide, by decide, ?_, by decide, by decide⟩
  exact claim_C8_fallback_no_scheme_no_dot demoParse8 "wired" (by decide) (by decide)

-- ## C1: what ends the interaction loop

theorem normalize_url_ok (parse : String → Option String) (hparse : ∀ s, (parse s).isSome)
    (url : String) : ∃ s, normalize_url parse url = Except.ok s := by
  simp only [normalize_url]
  split
  · obtain ⟨s, hs⟩ := Option.isSome_iff_exists.mp (hparse (rustTrim url))
    rw [hs]
    exact ⟨s, rfl⟩
  · obtain ⟨s, hs⟩ := Option.isSome_iff_exists.mp (hparse ("https://" ++ rustTrim url))
    rw [hs]
    exact ⟨s, rfl⟩

/-- With a total `Url::parse` oracle (every string the session hands to it
parses), `navigate` propagates no error: every failure is absorbed into a
`URLSuggestions`/`Error` state. -/
theorem navigate_snd_none (env : Env) (hparse : ∀ s, (env.parse s).isSome)
    (b : BrowserState) (url : String) : (Browser.navigate env b url).2 = none := by
  obtain ⟨nurl, hn⟩ := normalize_url_ok env.parse hparse url
  unfold Browser.navigate
  split
  · rename_i e heq
    simp [hn] at heq
  · rename_i nurl' heq
    split
    · rfl
    · rename_i e heq2
      by_cases hs : (get_url_suggestions env url e).isEmpty
      · simp [hs]
      · simp [hs]

theorem stepNavigate_cont (env : Env) (hparse : ∀ s, (env.parse s).isSome)
    (b : BrowserState) (url : String) :
    stepNavigate env b url = StepResult.cont (Browser.navigate env b url).1 := by
  have h2 := navigate_snd_none env hparse b url
  unfold stepNavigate
  cases hnav : Browser.navigate env b url with
  | mk b' eopt =>
    cases eopt with
    | none => rfl
    | some e =>
      rw [hnav] at h2
      simp at h2

/-- C1 (amended): as long as every URL normalization succeeds (total
parse oracle), no pipeline failure of any kind ends the interaction loop:
every action other than `Quit` continues the loop, and only `Quit` breaks
it. (The unamended claim fails: a URL-syntax error in normalization
propagates out of the loop, see the counterexample.) -/
theorem claim_C1_loop_on_normalize (env : Env) (hparse : ∀ s, (env.parse s).isSome)
    (b : BrowserState) (a : UserAction) :
    (∃ b', Browser.step env b a = StepResult.cont b') ∨
    (a = UserAction.Quit ∧ Browser.step env b a = StepResult.quitted b) := by
  cases a with
  | Quit => exact Or.inr ⟨rfl, rfl⟩
  | FollowLink index =>
    refine Or.inl ?_
    simp only [Browser.step]
    cases hf : b.currentLinks.find? (fun l => l.index == index) with
    | some link => exact ⟨_, stepNavigate_cont env hparse _ _⟩
    | none => exact ⟨_, rfl⟩
  | FollowSelectedLink =>
    refine Or.inl ?_
    simp only [Browser.step]
    cases hf : b.currentLinks.get? env.selectedLink with
    | some link => exact ⟨_, stepNavigate_cont env hparse _ _⟩
    | none => exact ⟨_, rfl⟩
  | GoBack =>
    refine Or.inl ?_
    simp only [Browser.step]
    cases hst : b.currentState with
    | History entries ci =>
      cases hc : b.history.current with
      | some current => exact ⟨_, rfl⟩
      | none => exact ⟨_, rfl⟩
    | Error msg =>
      cases hc : b.history.current with
      | some current => exact ⟨_, rfl⟩
      | none => exact ⟨_, rfl⟩
    | Loading u pr st =>
      cases hgb : b.history.go_back with
      | mk h' eopt =>
        cases eopt with
        | some entry => exact ⟨_, stepNavigate_cont env hparse _ _⟩
        | none => exact ⟨_, rfl⟩
    | Page u t s l =>
      cases hgb : b.history.go_back with
      | mk h' eopt =>
        cases eopt with
        | some entry => exact ⟨_, stepNavigate_cont env hparse _ _⟩
        | none => exact ⟨_, rfl⟩
    | URLInput i =>
      cases hgb : b.history.go_back with
      | mk h' eopt =>
        cases eopt with
        | some entry => exact ⟨_, stepNavigate_cont env hparse _ _⟩
        | none => exact ⟨_, rfl⟩
    | URLSuggestions o e sg si =>
      cases hgb : b.history.go_back with
      | mk h' eopt =>
        cases eopt with
        | some entry => exact ⟨_, stepNavigate_cont env hparse _ _⟩
        | none => exact ⟨_, rfl⟩
  | GoForward =>
    refine Or.inl ?_
    simp only [Browser.step]
    cases hgf : b.history.go_forward with
    | mk h' eopt =>
      cases eopt with
      | some entry => exact ⟨_, stepNavigate_cont env hparse _ _⟩
      | none => exact ⟨_, rfl⟩
  | ShowHistory => exact Or.inl ⟨_, rfl⟩
  | EnterUrl => exact Or.inl ⟨_, rfl⟩
  | ConfirmInput url =>
    refine Or.inl ?_
    simp only [Browser.step]
    cases hbeq : (url == "") with
    | true => exact ⟨_, rfl⟩
    | false => exact ⟨_, stepNavigate_cont env hparse _ _⟩
  | CancelInput =>
    refine Or.inl ?_
    simp only [Browser.step]
    cases hc : b.history.current with
    | some current => exact ⟨_, rfl⟩
    | none => exact ⟨_, rfl⟩
  | Refresh =>
    refine Or.inl ?_
    simp only [Browser.step]
    cases hst : b.currentState with
    | Error msg =>
      cases hc : b.history.current with
      | some current => exact ⟨_, rfl⟩
      | none => exact ⟨_, rfl⟩
    | Loading u pr st =>
      cases hcu : b.currentUrl with
      | some url => exact ⟨_, stepNavigate_cont env hparse _ _⟩
      | none => exact ⟨_, rfl⟩
    | Page u t s l =>
      cases hcu : b.currentUrl with
      | some url => exact ⟨_, stepNavigate_cont env hparse _ _⟩
      | none => exact ⟨_, rfl⟩
    | URLInput i =>
      cases hcu : b.currentUrl with
      | some url => exact ⟨_, stepNavigate_cont env hparse _ _⟩
      | none => exact ⟨_, rfl⟩
    | URLSuggestions o e sg si =>
      cases hcu : b.currentUrl with
      | some url => exact ⟨_, stepNavigate_cont env hparse _ _⟩
      | none => exact ⟨_, rfl⟩
    | History entries ci =>
      cases hcu : b.currentUrl with
      | some url => exact ⟨_, stepNavigate_cont env hparse _ _⟩
      | none => exact ⟨_, rfl⟩
  | ScrollUp => exact Or.inl ⟨_, rfl⟩
  | ScrollDown => exact Or.inl ⟨_, rfl⟩
  | SelectPrevLink => exact Or.inl ⟨_, rfl⟩
  | SelectNextLink => exact Or.inl ⟨_, rfl⟩
  | InputChar c => exact Or.inl ⟨_, rfl⟩
  | Backspace => exact Or.inl ⟨_, rfl⟩
  | SelectPrevSuggestion =>
    refine Or.inl ?_
    simp only [Browser.step]
    cases hst : b.currentState with
    | URLSuggestions o e sg si => exact ⟨_, rfl⟩
    | Loading u pr st => exact ⟨_, rfl⟩
    | Page u t s l => exact ⟨_, rfl⟩
    | URLInput i => exact ⟨_, rfl⟩
    | History entries ci => exact ⟨_, rfl⟩
    | Error msg => exact ⟨_, rfl⟩
  | SelectNextSuggestion =>
    refine Or.inl ?_
    simp only [Browser.step]
    cases hst : b.currentState with
    | URLSuggestions o e sg si => exact ⟨_, rfl⟩
    | Loading u pr st => exact ⟨_, rfl⟩
    | Page u t s l => exact ⟨_, rfl⟩
    | URLInput i => exact ⟨_, rfl⟩
    | History entries ci => exact ⟨_, rfl⟩
    | Error msg => exact ⟨_, rfl⟩
  | ConfirmSuggestion =>
    refine Or.inl ?_
    simp only [Browser.step]
    cases hst : b.currentState with
    | URLSuggestions o e sg si =>
      show ∃ b', (match sg.get? si with
        | some selected_url => stepNavigate env b selected_url
        | none => StepResult.cont b) = StepResult.cont b'
      cases hg : sg.get? si with
      | some selected_url => exact ⟨_, stepNavigate_cont env hparse _ _⟩
      | none => exact ⟨_, rfl⟩
    | Loading u pr st => exact ⟨_, rfl⟩
    | Page u t s l => exact ⟨_, rfl⟩
    | URLInput i => exact ⟨_, rfl⟩
    | History entries ci => exact ⟨_, rfl⟩
    | Error msg => exact ⟨_, rfl⟩
  | DismissError =>
    refine Or.inl ?_
    simp only [Browser.step]
    cases hc : b.history.current with
    | some current => exact ⟨_, rfl⟩
    | none => exact ⟨_, rfl⟩

theorem claim_C1_loop_on_normalize_witness :
    (∃ b', Browser.step demoEnvC9
        { history := History.new, currentUrl := none, currentLinks := [],
          currentState := UIState.URLInput "", urlInput := "" }
        (UserAction.ConfirmInput "https://example.com/") = StepResult.cont b') ∨
    (UserAction.ConfirmInput "https://example.com/" = UserAction.Quit ∧
     Browser.step demoEnvC9
        { history := History.new, currentUrl := none, currentLinks := [],
          currentState := UIState.URLInput "", urlInput := "" }
        (UserAction.ConfirmInput "https://example.com/") = StepResult.quitted
        { history := History.new, currentUrl := none, currentLinks := [],
          currentState := UIState.URLInput "", urlInput := "" }) :=
  claim_C1_loop_on_normalize demoEnvC9 (fun _ => rfl)
    { history := History.new, currentUrl := none, currentLinks := [],
      currentState := UIState.URLInput "", urlInput := "" }
    (UserAction.ConfirmInput "https://example.com/")

/-- A session environment whose `Url::parse` rejects
`"https://not a url"` (a space is not a valid host character), as the
`url` crate does. -/
def demoEnvC1 : Env :=
  { demoEnvC9 with parse := fun s => if s == "https://not a url" then none else some s }

def demoB0 : BrowserState :=
  { history := History.new, currentUrl := none, currentLinks := [],
    currentState := UIState.URLInput "", urlInput := "" }

set_option maxRecDepth 100000 in
/-- C1 counterexample: confirming the input "not a url" — whose
normalization `Url::parse("https://not a url")` fails with a URL-syntax
error — does NOT leave the loop running in an error/suggestion state: the
`?` on `normalize_url` in `Browser::navigate` (src/browser.rs:47)
propagates the error through the `?` in the `ConfirmInput` arm
(src/browser.rs:177), so the loop body returns `Err` and `main_loop`
terminates. An action other than `Quit` ends the process. -/
theorem claim_C1_counterexample :
    Browser.step demoEnvC1 demoB0 (UserAction.ConfirmInput "not a url") =
      StepResult.fatal demoB0 "invalid url: https://not a url" := by
  decide

-- ## C4: forward navigation after a successful GoBack re-navigation

theorem get?_append_left : ∀ (l₁ l₂ : List HistoryEntry) (n : Nat), n < l₁.length →
    (l₁ ++ l₂).get? n = l₁.get? n
  | [], _, n, h => by simp at h
  | _ :: _, _, 0, _ => rfl
  | a :: t, l₂, n + 1, h => by
    simp only [List.cons_append, List.get?]
    exact get?_append_left t l₂ n (by simpa using h)

theorem get?_take_lt : ∀ (l : List HistoryEntry) (n m : Nat), m < n →
    (l.take n).get? m = l.get? m
  | [], _, _, _ => by simp
  | _ :: _, n + 1, 0, _ => rfl
  | a :: t, n + 1, m + 1, h => by
    simp only [List.take, List.get?]
    exact get?_take_lt t n m (by omega)
  | _ :: _, 0, m, h => absurd h (by omega)

theorem get?_concat_len : ∀ (l : List HistoryEntry) (a : HistoryEntry),
    (l ++ [a]).get? l.length = some a
  | [], _ => rfl
  | x :: t, a => by
    simp only [List.cons_append, List.length_cons, List.get?]
    exact get?_concat_len t a

theorem History.go_back_some (h : History) (i : Nat) (hc : h.current_index = some i)
    (hi : 0 < i) (entry : HistoryEntry) (hget : h.entries.get? (i - 1) = some entry) :
    h.go_back = ({ h with current_index := some (i - 1) }, some entry) := by
  have hcgb : h.can_go_back = true := by
    unfold History.can_go_back
    rw [hc]
    exact decide_eq_true hi
  unfold History.go_back
  rw [if_pos hcgb, hc]
  show ({ h with current_index := some (i - 1) }, h.entries.get? (i - 1)) = _
  rw [hget]

/-- C4: from a `Page` state with the history cursor at `i > 0`, a
`GoBack` whose re-navigation pipeline succeeds re-adds the revisited URL
(the stored URL is already canonical, so normalization returns it
unchanged — the `hnorm` round-trip hypothesis): the resulting history is
the old prefix up to `i - 1` plus a fresh entry with the same URL, so two
consecutive entries carry that URL, the cursor sits at the tail, and
`can_go_forward`/`go_forward` yield nothing. -/
theorem claim_C4_goback_renavigation (env : Env) (b : BrowserState)
    (pu pt ps : String) (pl : List Link)
    (i : Nat) (entry : HistoryEntry) (title summary : String) (links : List Link)
    (hpage : b.currentState = UIState.Page pu pt ps pl)
    (hinv : b.history.Inv)
    (hc : b.history.current_index = some i)
    (hi : 0 < i)
    (hentry : b.history.entries.get? (i - 1) = some entry)
    (hnorm : normalize_url env.parse entry.url = Except.ok entry.url)
    (hpipe : fetch_and_process env entry.url = Except.ok (title, summary, links)) :
    ∃ b', Browser.step env b UserAction.GoBack = StepResult.cont b' ∧
      b'.history.entries
        = b.history.entries.take i ++ [{ url := entry.url, title := title }] ∧
      (b'.history.entries.get? (i - 1)).map HistoryEntry.url = some entry.url ∧
      (b'.history.entries.get? i).map HistoryEntry.url = some entry.url ∧
      b'.history.current_index = some (b'.history.entries.length - 1) ∧
      b'.history.current_index = some i ∧
      b'.history.can_go_forward = false ∧
      b'.history.go_forward.2 = none := by
  obtain ⟨hmax, hlen, hcur⟩ := hinv
  have h100 : b.history.max_size = 100 := hmax
  have hilen : i < b.history.entries.length := by simpa [hc] using hcur
  -- the go_back call
  have hgb := History.go_back_some b.history i hc hi entry hentry
  -- the truncation in the subsequent add
  have htr : popBackN (b.history.entries.length - (i - 1) - 1) b.history.entries
      = b.history.entries.take i := by
    rw [popBackN_eq_take]
    congr 1
    omega
  have htklen : (b.history.entries.take i).length = i := by
    rw [List.length_take]
    omega
  have hlen' : (b.history.entries.take i
      ++ [{ url := entry.url, title := title : HistoryEntry }]).length = i + 1 := by
    rw [List.length_append, htklen]
    rfl
  have hev := evict_le b.history.max_size
    (b.history.entries.take i ++ [{ url := entry.url, title := title }])
    (some ((b.history.entries.take i
      ++ [{ url := entry.url, title := title : HistoryEntry }]).length - 1))
    (by rw [hlen', h100]; omega)
  have haddeq : ({ b.history with current_index := some (i - 1) } : History).add
      entry.url title
      = { b.history with
          entries := b.history.entries.take i ++ [{ url := entry.url, title := title }],
          current_index := some i } := by
    simp only [History.add, htr]
    rw [hev]
    show ({ b.history with
        entries := b.history.entries.take i ++ [{ url := entry.url, title := title }],
        current_index := some ((b.history.entries.take i
          ++ [{ url := entry.url, title := title : HistoryEntry }]).length - 1) } : History) = _
    rw [hlen']
    rfl
  -- the navigate call succeeds and installs the new history
  have hnav : ∀ bb : BrowserState, Browser.navigate env bb entry.url
      = ({ bb with
            history := bb.history.add entry.url title,
            currentUrl := some entry.url,
            currentLinks := links,
            currentState := UIState.Page entry.url title summary links }, none) := by
    intro bb
    unfold Browser.navigate
    split
    · rename_i e heq
      simp [hnorm] at heq
    · rename_i nurl heq
      rw [hnorm] at heq
      injection heq with hn1
      subst hn1
      split
      · rename_i heq2
        rw [hpipe] at heq2
        injection heq2 with hp1
        injection hp1 with ha hrest
        injection hrest with hb hcl
        subst ha
        subst hb
        subst hcl
        rfl
      · rename_i e heq2
        simp [hpipe] at heq2
  have hstep : Browser.step env b UserAction.GoBack =
      StepResult.cont { b with
        history := ({ b.history with current_index := some (i - 1) } : History).add
          entry.url title,
        currentUrl := some entry.url,
        currentLinks := links,
        currentState := UIState.Page entry.url title summary links } := by
    simp only [Browser.step]
    rw [hpage, hgb]
    show (match Browser.navigate env
        { history := { b.history with current_index := some (i - 1) },
          currentUrl := b.currentUrl, currentLinks := b.currentLinks,
          currentState := UIState.Page pu pt ps pl, urlInput := b.urlInput } entry.url with
      | (bf, none) => StepResult.cont bf
      | (bf, some e) => StepResult.fatal bf e) = _
    rw [hnav]
  have hf4 : ((b.history.entries.take i
      ++ [{ url := entry.url, title := title : HistoryEntry }]).get? (i - 1))
      = some entry := by
    rw [get?_append_left _ _ _ (by rw [htklen]; omega),
      get?_take_lt _ _ _ (by omega), hentry]
  have hf5 : ((b.history.entries.take i
      ++ [{ url := entry.url, title := title : HistoryEntry }]).get? i)
      = some { url := entry.url, title := title } := by
    have := get?_concat_len (b.history.entries.take i)
      { url := entry.url, title := title }
    rw [htklen] at this
    exact this
  have hfacts : ∀ G : History, G = { b.history with
      entries := b.history.entries.take i ++ [{ url := entry.url, title := title }],
      current_index := some i } →
      G.entries = b.history.entries.take i ++ [{ url := entry.url, title := title }] ∧
      (G.entries.get? (i - 1)).map HistoryEntry.url = some entry.url ∧
      (G.entries.get? i).map HistoryEntry.url = some entry.url ∧
      G.current_index = some (G.entries.length - 1) ∧
      G.current_index = some i ∧
      G.can_go_forward = false ∧
      G.go_forward.2 = none := by
    intro G hG
    subst hG
    have hcgf : ({ b.history with
        entries := b.history.entries.take i ++ [{ url := entry.url, title := title }],
        current_index := some i } : History).can_go_forward = false := by
      unfold History.can_go_forward
      show decide (i < (b.history.entries.take i
        ++ [{ url := entry.url, title := title : HistoryEntry }]).length - 1) = false
      rw [hlen']
      simp
    refine ⟨rfl, ?_, ?_, ?_, rfl, hcgf, ?_⟩
    · show ((b.history.entries.take i
        ++ [{ url := entry.url, title := title : HistoryEntry }]).get? (i - 1)).map
          HistoryEntry.url = some entry.url
      rw [hf4]
      rfl
    · show ((b.history.entries.take i
        ++ [{ url := entry.url, title := title : HistoryEntry }]).get? i).map
          HistoryEntry.url = some entry.url
      rw [hf5]
      rfl
    · show some i = some ((b.history.entries.take i
        ++ [{ url := entry.url, title := title : HistoryEntry }]).length - 1)
      rw [hlen']
      rfl
    · unfold History.go_forward
      rw [if_neg (fun hcontra => by rw [hcgf] at hcontra; cases hcontra)]
  exact ⟨_, hstep, hfacts _ haddeq⟩

def demoBC4 : BrowserState :=
  { history := { entries := [{ url := "https://a.example/", title := "A" },
                             { url := "https://b.example/", title := "B" }],
                 current_index := some 1, max_size := 100 },
    currentUrl := some "https://b.example/",
    currentLinks := [],
    currentState := UIState.Page "https://b.example/" "B" "s" [],
    urlInput := "" }

set_option maxRecDepth 100000 in
theorem claim_C4_goback_renavigation_witness :
    ∃ b', Browser.step demoEnvC9 demoBC4 UserAction.GoBack = StepResult.cont b' ∧
      b'.history.entries = demoBC4.history.entries.take 1
        ++ [{ url := "https://a.example/", title := "Untitled" }] ∧
      (b'.history.entries.get? 0).map HistoryEntry.url = some "https://a.example/" ∧
      (b'.history.entries.get? 1).map HistoryEntry.url = some "https://a.example/" ∧
      b'.history.current_index = some (b'.history.entries.length - 1) ∧
      b'.history.current_index = some 1 ∧
      b'.history.can_go_forward = false ∧
      b'.history.go_forward.2 = none :=
  claim_C4_goback_renavigation demoEnvC9 demoBC4 "https://b.example/" "B" "s" [] 1
    { url := "https://a.example/", title := "A" } "Untitled"
    "Failed to generate summary: rate limited\n\nRaw text:\nInteresting article" []
    rfl ⟨rfl, by decide, by show (1 : Nat) < 2; decide⟩ rfl (by decide) rfl rfl (by rfl)

def demoHistC3 : History :=
  { entries := [{ url := "https://a.example/", title := "A" },
                { url := "https://b.example/", title := "B" },
                { url := "https://c.example/", title := "C" }],
    current_index := some 2, max_size := 100 }

theorem claim_C3_branch_truncation_witness :
    ((History.goBackTimes 1 demoHistC3).add "https://d.example/" "D").entries
        = demoHistC3.entries.take ((2 - 1) + 1)
          ++ [{ url := "https://d.example/", title := "D" }] ∧
    ∀ e ∈ ((History.goBackTimes 1 demoHistC3).add "https://d.example/" "D").entries.dropLast,
        e ∈ demoHistC3.entries.take (2 + 1) :=
  claim_C3_branch_truncation demoHistC3 2 1 "https://d.example/" "D"
    ⟨rfl, by decide, by show (2 : Nat) < 3; decide⟩ rfl (by decide)
